import Mathlib

/-!
Verification of the kamachess core against its specification.

The development shallowly embeds the parts of the source that the
properties under scrutiny depend on:

* `src/game/chess.rs` — the move-notation resolver (`parse_move`,
  `parse_san`, `parse_castling` and their helpers);
* `src/handlers/game_handler.rs` — the game-session state machine
  (`handle_move`, `handle_resign`, `handle_draw_proposal`,
  `handle_accept_draw`, `determine_game_result`);
* `src/game/cache.rs` — the bounded image cache (`get_or_create`,
  `check_and_evict_if_needed`, `evict_lru_files`, `get_cache_path`);
* `src/parsing/mod.rs` — move-candidate extraction (`extract_move`,
  `is_move_candidate`, `normalize_chess_input`).

The external `chess` crate (the PositionEngine collaborator) is treated
as an oracle: a `Board` carries the data the resolver and the handlers
actually consult — the side to move, the legal-move enumeration and the
piece placement — and move application / terminal classification are
supplied by an abstract `Engine`.  Strings are modelled as `List Char`;
the source only ever indexes the relevant strings at ASCII content
(Cyrillic input is normalized to Latin before parsing), where Rust byte
indices and character indices coincide.
-/

namespace Kamachess

/-! ### PositionEngine vocabulary (oracle interface of the `chess` crate) -/

inductive Color where
  | White
  | Black
deriving DecidableEq, Repr

inductive Piece where
  | Pawn
  | Knight
  | Bishop
  | Rook
  | Queen
  | King
deriving DecidableEq, Repr

/-- A board square: file index 0–7 (a–h) and rank index 0–7 (1–8),
mirroring `Square`/`File::to_index`/`Rank::to_index` of the chess crate. -/
structure Square where
  file : Nat
  rank : Nat
deriving DecidableEq, Repr

/-- Embeds `ChessMove`: source, destination, optional promotion piece. -/
structure ChessMove where
  source : Square
  dest : Square
  promotion : Option Piece
deriving DecidableEq, Repr

inductive BoardStatus where
  | Ongoing
  | Stalemate
  | Checkmate
deriving DecidableEq, Repr

/-- The position oracle: exactly the three queries the resolver makes of a
`chess::Board` — `side_to_move()`, `MoveGen::new_legal(board)` and
`piece_on(square)`. -/
structure Board where
  sideToMove : Color
  legalMoves : List ChessMove
  pieces : List (Square × Piece)
deriving DecidableEq, Repr

/-- Embeds `board.piece_on(sq)`. -/
def Board.pieceOn (b : Board) (sq : Square) : Option Piece :=
  (b.pieces.find? (fun sp => sp.1 == sq)).map (·.2)

/-! ### Character/string helpers mirroring the Rust string operations -/

/-- List of characters of a string literal. -/
def str (s : String) : List Char := s.toList

/-- ASCII whitespace; the inputs the resolver sees are ASCII, where
Rust `char::is_whitespace` agrees with this predicate. -/
def isWs (c : Char) : Bool :=
  c == ' ' || c == '\t' || c == '\n' || c == '\r'

/-- Remove matching characters from the end of a list
(`str::trim_end_matches` with a single-char pattern, and the tail half
of `str::trim`). -/
def dropEndWhile (p : Char → Bool) (l : List Char) : List Char :=
  (l.reverse.dropWhile p).reverse

/-- Embeds `str::trim` (ASCII inputs). -/
def trimChars (l : List Char) : List Char :=
  dropEndWhile isWs (l.dropWhile isWs)

/-! ### The move resolver: `src/game/chess.rs` -/

/-- The distinguishable error constructions of `parse_move`/`parse_san`;
each constructor corresponds to one `anyhow!` site in the source. -/
inductive ParseError where
  | invalidSquare
  | invalidSourceSquare
  | invalidDestSquare
  | ambiguousOrIllegal
  | illegalMove
  | invalidPromotion
  | unknownPromotion
  | sanTooShort
  | sanInvalidDest
  | sanNoLegalMoves
  | sanNoPieceMatch
  | sanAmbiguous
  | castlingNotLegal
deriving DecidableEq, Repr

/-- Embeds `Square::from_str`: the chess crate reads the first two characters,
requiring a file letter a–h then a rank digit 1–8. -/
def Square.fromStr : List Char → Option Square
  | f :: r :: _ =>
    if 'a' ≤ f ∧ f ≤ 'h' ∧ '1' ≤ r ∧ r ≤ '8' then
      some ⟨f.toNat - 'a'.toNat, r.toNat - '1'.toNat⟩
    else
      none
  | _ => none

/-- Embeds `parse_piece_char`. -/
def parsePieceChar (c : Char) : Option Piece :=
  match c.toUpper with
  | 'K' => some .King
  | 'Q' => some .Queen
  | 'R' => some .Rook
  | 'B' => some .Bishop
  | 'N' => some .Knight
  | _ => none

/-- Embeds `parse_promotion_char`: the full (uppercased) remainder must be one
of Q, R, B, N. -/
def parsePromotionChars (l : List Char) : Option Piece :=
  match l.map Char.toUpper with
  | ['Q'] => some .Queen
  | ['R'] => some .Rook
  | ['B'] => some .Bishop
  | ['N'] => some .Knight
  | _ => none

/-- Embeds `parse_promotion` (coordinate path): lowercase q, r, b, n only. -/
def parsePromotionLower (l : List Char) : Option Piece :=
  match l with
  | ['q'] => some .Queen
  | ['r'] => some .Rook
  | ['b'] => some .Bishop
  | ['n'] => some .Knight
  | _ => none

/-- Rank index of the castling home rank (`Rank::First` / `Rank::Eighth`). -/
def homeRank : Color → Nat
  | .White => 0
  | .Black => 7

/-- File index of the castled king: c-file when queenside, g-file when
kingside (`File::C` / `File::G`). -/
def castleTargetFile (queenside : Bool) : Nat :=
  if queenside then 2 else 6

/-- The king's castling move as constructed by `parse_castling`: from the
e-file home square to the target file, no promotion. -/
def castleCandidate (side : Color) (queenside : Bool) : ChessMove :=
  ⟨⟨4, homeRank side⟩, ⟨castleTargetFile queenside, homeRank side⟩, none⟩

/-- Embeds `parse_castling`. -/
def parseCastling (b : Board) (side : Color) (queenside : Bool) :
    Except ParseError ChessMove :=
  let candidate : ChessMove := castleCandidate side queenside
  if b.legalMoves.any (fun m => m == candidate) then
    .ok candidate
  else
    .error .castlingNotLegal

/-- The promotion-extraction step of `parse_san`: an explicit `=P` suffix
(whose remainder must parse, else the whole parse errors), or a trailing
piece letter right after a rank digit.  Returns the move part and the
promotion, or `none` when the `=`-branch promotion fails to parse. -/
def sanSplitPromotion (s : List Char) : Option (List Char × Option Piece) :=
  match s.findIdx? (fun c => c == '=') with
  | some pos =>
    match parsePromotionChars (s.drop (pos + 1)) with
    | some p => some (s.take pos, some p)
    | none => none
  | none =>
    if s.length ≥ 2 ∧ (s.get? (s.length - 2)).any Char.isDigit then
      match s.getLast? with
      | some last =>
        match parsePromotionChars [last] with
        | some p => some (s.take (s.length - 1), some p)
        | none => some (s, none)
      | none => some (s, none)
    else
      some (s, none)

/-- The candidate filter of `parse_san`: legal moves to the destination,
restricted by the promotion piece when one was given
(`promo.map_or(true, |p| m.get_promotion() == Some(p))`). -/
def sanCandidates (b : Board) (dest : Square) (promo : Option Piece) :
    List ChessMove :=
  b.legalMoves.filter
    (fun m => m.dest == dest && promo.all (fun p => m.promotion == some p))

/-- The per-candidate piece-type and disambiguation check of `parse_san`.
A rank disambiguation digit of 0 underflows `rank_num - 1` in the source
(u8 wrap) and thus never matches a real rank index; it is modelled as a
plain non-match. -/
def sanMatchPred (b : Board) (movePart : List Char) (pieceType : Option Piece)
    (m : ChessMove) : Bool :=
  let piece := (b.pieceOn m.source).getD .Pawn
  let expected := pieceType.getD .Pawn
  if piece != expected then
    false
  else if movePart.length > 3 then
    match (movePart.drop 1).take (movePart.length - 3) with
    | [ch] =>
      if ch.isLower then
        m.source.file == ch.toNat - 'a'.toNat
      else if ch.isDigit then
        let rankNum := ch.toNat - '0'.toNat
        if rankNum ≥ 1 then m.source.rank == rankNum - 1 else false
      else
        false
    | [c1, c2] =>
      match Square.fromStr [c1, c2] with
      | some sq => m.source == sq
      | none => false
    | _ => false
  else
    true

/-- The piece-type/disambiguation filter applied to the destination
candidates. -/
def sanMatches (b : Board) (movePart : List Char) (pieceType : Option Piece)
    (dest : Square) (promo : Option Piece) : List ChessMove :=
  (sanCandidates b dest promo).filter (sanMatchPred b movePart pieceType)

/-- The expected piece letter of `parse_san`: the leading character when
the move part is longer than a bare destination; absence means pawn. -/
def sanPieceType (movePart : List Char) : Option Piece :=
  if movePart.length > 2 then
    match movePart with
    | c :: _ => parsePieceChar c
    | [] => none
  else
    none

/-- The selection stage of `parse_san`: empty destination-candidate set
reports "no legal moves to …"; otherwise exactly one filtered match
succeeds, zero is the no-matching-piece error, several is the
ambiguity error asking for disambiguation. -/
def sanFinish (b : Board) (movePart : List Char) (dest : Square)
    (promo : Option Piece) : Except ParseError ChessMove :=
  if (sanCandidates b dest promo).isEmpty then
    .error .sanNoLegalMoves
  else
    match sanMatches b movePart (sanPieceType movePart) dest promo with
    | [m] => .ok m
    | [] => .error .sanNoPieceMatch
    | _ => .error .sanAmbiguous

/-- Embeds `parse_san`. -/
def parseSan (b : Board) (input : List Char) : Except ParseError ChessMove :=
  let s := trimChars input
  if s = str "O-O" ∨ s = str "o-o" ∨ s = str "0-0" then
    parseCastling b b.sideToMove false
  else if s = str "O-O-O" ∨ s = str "o-o-o" ∨ s = str "0-0-0" then
    parseCastling b b.sideToMove true
  else
    let s := dropEndWhile (fun c => c == '#') (dropEndWhile (fun c => c == '+') s)
    match sanSplitPromotion s with
    | none => .error .invalidPromotion
    | some (movePart0, promo) =>
      let movePart := movePart0.filter (fun c => c != 'x' && c != 'X')
      if movePart.length < 2 then
        .error .sanTooShort
      else
        match Square.fromStr ((movePart.drop (movePart.length - 2)).map Char.toLower) with
        | none => .error .sanInvalidDest
        | some dest => sanFinish b movePart dest promo

/-- Embeds `parse_move`: SAN first, then the coordinate fallback. -/
def parseMove (b : Board) (input : List Char) : Except ParseError ChessMove :=
  let trimmed := trimChars input
  match parseSan b trimmed with
  | .ok mv => .ok mv
  | .error _ =>
    let mv := trimmed.map Char.toLower
    if mv.length = 2 then
      match Square.fromStr mv with
      | none => .error .invalidSquare
      | some dest =>
        match b.legalMoves.filter (fun m => m.dest == dest) with
        | [m] => .ok m
        | _ => .error .ambiguousOrIllegal
    else if mv.length = 4 ∨ mv.length = 5 then
      match Square.fromStr (mv.take 2) with
      | none => .error .invalidSourceSquare
      | some src =>
        match Square.fromStr ((mv.drop 2).take 2) with
        | none => .error .invalidDestSquare
        | some dst =>
          if mv.length = 5 then
            match parsePromotionLower (mv.drop 4) with
            | none => .error .unknownPromotion
            | some p =>
              let candidate : ChessMove := ⟨src, dst, some p⟩
              if b.legalMoves.any (fun m => m == candidate) then .ok candidate
              else .error .illegalMove
          else
            let candidate : ChessMove := ⟨src, dst, none⟩
            if b.legalMoves.any (fun m => m == candidate) then .ok candidate
            else .error .illegalMove
    else
      .error .illegalMove

end Kamachess

namespace Kamachess

/-! ### Membership lemmas for the resolver -/

theorem parseCastling_mem {b : Board} {side : Color} {q : Bool} {m : ChessMove}
    (h : parseCastling b side q = .ok m) : m ∈ b.legalMoves := by
  simp only [parseCastling] at h
  split at h
  · next hany =>
    rcases List.any_eq_true.mp hany with ⟨x, hx, hbeq⟩
    cases h
    exact beq_iff_eq.mp hbeq ▸ hx
  · exact Except.noConfusion h

theorem sanFinish_mem {b : Board} {movePart : List Char} {dest : Square}
    {promo : Option Piece} {m : ChessMove}
    (h : sanFinish b movePart dest promo = .ok m) : m ∈ b.legalMoves := by
  simp only [sanFinish] at h
  split at h
  · exact Except.noConfusion h
  · split at h
    · next m' heq =>
      cases h
      have hm : m ∈ [m] := List.mem_singleton_self m
      rw [← heq] at hm
      simp only [sanMatches] at hm
      have h1 := (List.mem_filter.mp hm).1
      simp only [sanCandidates] at h1
      exact (List.mem_filter.mp h1).1
    · exact Except.noConfusion h
    · exact Except.noConfusion h

theorem parseSan_mem {b : Board} {input : List Char} {m : ChessMove}
    (h : parseSan b input = .ok m) : m ∈ b.legalMoves := by
  simp only [parseSan] at h
  split at h
  · exact parseCastling_mem h
  · split at h
    · exact parseCastling_mem h
    · split at h
      · cases h
      · split at h
        · cases h
        · split at h
          · cases h
          · exact sanFinish_mem h

end Kamachess

namespace Kamachess

/-- A tiny concrete oracle instance: the opening position restricted to
the two moves the witnesses exercise (e2–e4 and g1–f3). -/
def demoBoard : Board :=
  { sideToMove := .White
    legalMoves :=
      [ ⟨⟨4, 1⟩, ⟨4, 3⟩, none⟩
      , ⟨⟨6, 0⟩, ⟨5, 2⟩, none⟩ ]
    pieces := [(⟨4, 1⟩, .Pawn), (⟨6, 0⟩, .Knight)] }

/-- C2: on every path — SAN, castling, 2-character destination and
4/5-character coordinate — a move returned by the resolver is a member
of the position engine's legal-move enumeration; the resolver never
produces a move the engine would reject. -/
theorem resolver_returns_only_legal_moves
    (b : Board) (input : List Char) (m : ChessMove)
    (h : parseMove b input = .ok m) : m ∈ b.legalMoves := by
  simp only [parseMove] at h
  split at h
  · next hsan => exact parseSan_mem (by rw [hsan]; cases h; rfl)
  · split at h
    · split at h
      · exact Except.noConfusion h
      · split at h
        · next m' heq =>
          cases h
          have hm : m ∈ [m] := List.mem_singleton_self m
          rw [← heq] at hm
          exact (List.mem_filter.mp hm).1
        · exact Except.noConfusion h
    · split at h
      · split at h
        · exact Except.noConfusion h
        · split at h
          · exact Except.noConfusion h
          · split at h
            · split at h
              · exact Except.noConfusion h
              · split at h
                · next hany =>
                  rcases List.any_eq_true.mp hany with ⟨x, hx, hbeq⟩
                  cases h
                  exact beq_iff_eq.mp hbeq ▸ hx
                · exact Except.noConfusion h
            · split at h
              · next hany =>
                rcases List.any_eq_true.mp hany with ⟨x, hx, hbeq⟩
                cases h
                exact beq_iff_eq.mp hbeq ▸ hx
              · exact Except.noConfusion h
      · exact Except.noConfusion h

/-- Witness for C2: the resolver applied to the concrete input "Nf3" on
the demo position succeeds, and the theorem places the resulting move in
the legal-move list. -/
theorem resolver_returns_only_legal_moves_witness :
    ⟨⟨6, 0⟩, ⟨5, 2⟩, none⟩ ∈ demoBoard.legalMoves :=
  resolver_returns_only_legal_moves demoBoard (str "Nf3") ⟨⟨6, 0⟩, ⟨5, 2⟩, none⟩
    (by rfl)

end Kamachess

namespace Kamachess

theorem parseCastling_of_mem {b : Board} {side : Color} {q : Bool}
    (h : castleCandidate side q ∈ b.legalMoves) :
    parseCastling b side q = .ok (castleCandidate side q) := by
  simp only [parseCastling]
  have hany : (b.legalMoves.any fun m => m == castleCandidate side q) = true :=
    List.any_eq_true.mpr ⟨castleCandidate side q, h, beq_self_eq_true _⟩
  rw [if_pos hany]

theorem parseMove_of_san_ok {b : Board} {input : List Char} {m : ChessMove}
    (h : parseSan b (trimChars input) = .ok m) :
    parseMove b input = .ok m := by
  simp only [parseMove]
  rw [h]

/-- A genuine position with kingside castling available for the side to
move: white Ke1 and Rh1, black Ke8, white to move; the legal moves are
the five king steps, the rook moves along the h-file and first rank, and
kingside castling e1–g1. -/
def castlingBoard : Board :=
  { sideToMove := .White
    legalMoves :=
      [ ⟨⟨4, 0⟩, ⟨3, 0⟩, none⟩
      , ⟨⟨4, 0⟩, ⟨3, 1⟩, none⟩
      , ⟨⟨4, 0⟩, ⟨4, 1⟩, none⟩
      , ⟨⟨4, 0⟩, ⟨5, 1⟩, none⟩
      , ⟨⟨4, 0⟩, ⟨5, 0⟩, none⟩
      , ⟨⟨7, 0⟩, ⟨7, 1⟩, none⟩
      , ⟨⟨7, 0⟩, ⟨7, 2⟩, none⟩
      , ⟨⟨7, 0⟩, ⟨7, 3⟩, none⟩
      , ⟨⟨7, 0⟩, ⟨7, 4⟩, none⟩
      , ⟨⟨7, 0⟩, ⟨7, 5⟩, none⟩
      , ⟨⟨7, 0⟩, ⟨7, 6⟩, none⟩
      , ⟨⟨7, 0⟩, ⟨7, 7⟩, none⟩
      , ⟨⟨7, 0⟩, ⟨6, 0⟩, none⟩
      , ⟨⟨7, 0⟩, ⟨5, 0⟩, none⟩
      , ⟨⟨4, 0⟩, ⟨6, 0⟩, none⟩ ]
    pieces := [(⟨4, 0⟩, .King), (⟨7, 0⟩, .Rook), (⟨4, 7⟩, .King)] }

/-- C3 counterexample: in a position where kingside castling is legal,
the aliases "00" and "oo" do not resolve — both fall through SAN parsing
and die in the coordinate fallback as invalid squares — so not all four
spellings of the claim succeed. -/
theorem castling_short_aliases_rejected :
    castleCandidate castlingBoard.sideToMove false ∈ castlingBoard.legalMoves ∧
    parseMove castlingBoard (str "00") = .error .invalidSquare ∧
    parseMove castlingBoard (str "oo") = .error .invalidSquare :=
  ⟨by decide, by rfl, by rfl⟩

/-- C3 (amended): the resolver recognizes exactly the spellings "O-O",
"o-o" and "0-0" for kingside castling (and "O-O-O", "o-o-o", "0-0-0"
for queenside); whenever the corresponding castling move is legal, each
recognized spelling resolves to that same king move — identical king and
rook placement — while "00" and "oo" are rejected. -/
theorem castling_alias_resolution (b : Board) :
    (castleCandidate b.sideToMove false ∈ b.legalMoves →
      parseMove b (str "O-O") = .ok (castleCandidate b.sideToMove false) ∧
      parseMove b (str "o-o") = .ok (castleCandidate b.sideToMove false) ∧
      parseMove b (str "0-0") = .ok (castleCandidate b.sideToMove false)) ∧
    (castleCandidate b.sideToMove true ∈ b.legalMoves →
      parseMove b (str "O-O-O") = .ok (castleCandidate b.sideToMove true) ∧
      parseMove b (str "o-o-o") = .ok (castleCandidate b.sideToMove true) ∧
      parseMove b (str "0-0-0") = .ok (castleCandidate b.sideToMove true)) := by
  constructor
  · intro hk
    have hc := parseCastling_of_mem (b := b) hk
    refine ⟨?_, ?_, ?_⟩ <;>
    · apply parseMove_of_san_ok
      simp only [parseSan]
      rw [if_pos (by decide)]
      exact hc
  · intro hq
    have hc := parseCastling_of_mem (b := b) hq
    refine ⟨?_, ?_, ?_⟩ <;>
    · apply parseMove_of_san_ok
      simp only [parseSan]
      rw [if_neg (by decide), if_pos (by decide)]
      exact hc

/-- Witness for the amended C3: on the concrete castling position the
three recognized kingside aliases all yield the e1–g1 king move. -/
theorem castling_alias_resolution_witness :
    parseMove castlingBoard (str "O-O") =
      .ok (castleCandidate castlingBoard.sideToMove false) ∧
    parseMove castlingBoard (str "o-o") =
      .ok (castleCandidate castlingBoard.sideToMove false) ∧
    parseMove castlingBoard (str "0-0") =
      .ok (castleCandidate castlingBoard.sideToMove false) :=
  (castling_alias_resolution castlingBoard).1 (by decide)

end Kamachess

namespace Kamachess

/-- When the input is not a castling alias and the promotion split,
length check and destination-square parse all succeed, `parse_san`
reaches its filtering stage. -/
theorem parseSan_reaches_finish (b : Board) (input : List Char)
    (movePart0 movePart : List Char) (promo : Option Piece) (dest : Square)
    (hnc1 : ¬(trimChars input = str "O-O" ∨ trimChars input = str "o-o" ∨
      trimChars input = str "0-0"))
    (hnc2 : ¬(trimChars input = str "O-O-O" ∨ trimChars input = str "o-o-o" ∨
      trimChars input = str "0-0-0"))
    (hsplit : sanSplitPromotion (dropEndWhile (fun c => c == '#')
      (dropEndWhile (fun c => c == '+') (trimChars input))) = some (movePart0, promo))
    (hmp : movePart = movePart0.filter (fun c => c != 'x' && c != 'X'))
    (hlen : ¬ movePart.length < 2)
    (hdest : Square.fromStr ((movePart.drop (movePart.length - 2)).map Char.toLower)
      = some dest) :
    parseSan b input = sanFinish b movePart dest promo := by
  subst hmp
  simp only [parseSan, if_neg hnc1, if_neg hnc2, hsplit, if_neg hlen, hdest]

/-- C6: once `parse_san` filters the legal moves by destination,
promotion piece, piece type and disambiguation token, the outcome is
determined by the number of remaining candidates: an empty
destination-candidate set is the no-legal-move error, a unique filtered
match is returned, an empty filtered match set is the
no-matching-piece error, and two or more matches is the ambiguity
error requesting disambiguation. -/
theorem san_filter_count_determines_outcome (b : Board) (input : List Char)
    (movePart0 movePart : List Char) (promo : Option Piece) (dest : Square)
    (hnc1 : ¬(trimChars input = str "O-O" ∨ trimChars input = str "o-o" ∨
      trimChars input = str "0-0"))
    (hnc2 : ¬(trimChars input = str "O-O-O" ∨ trimChars input = str "o-o-o" ∨
      trimChars input = str "0-0-0"))
    (hsplit : sanSplitPromotion (dropEndWhile (fun c => c == '#')
      (dropEndWhile (fun c => c == '+') (trimChars input))) = some (movePart0, promo))
    (hmp : movePart = movePart0.filter (fun c => c != 'x' && c != 'X'))
    (hlen : ¬ movePart.length < 2)
    (hdest : Square.fromStr ((movePart.drop (movePart.length - 2)).map Char.toLower)
      = some dest) :
    ((sanCandidates b dest promo).isEmpty = true →
      parseSan b input = .error .sanNoLegalMoves) ∧
    (¬ (sanCandidates b dest promo).isEmpty = true →
      (∀ m, sanMatches b movePart (sanPieceType movePart) dest promo = [m] →
        parseSan b input = .ok m) ∧
      (sanMatches b movePart (sanPieceType movePart) dest promo = [] →
        parseSan b input = .error .sanNoPieceMatch) ∧
      (2 ≤ (sanMatches b movePart (sanPieceType movePart) dest promo).length →
        parseSan b input = .error .sanAmbiguous)) := by
  have hmaster := parseSan_reaches_finish b input movePart0 movePart promo dest
    hnc1 hnc2 hsplit hmp hlen hdest
  rw [hmaster]
  constructor
  · intro hempty
    simp only [sanFinish, if_pos hempty]
  · intro hne
    refine ⟨?_, ?_, ?_⟩
    · intro m hm
      simp only [sanFinish, if_neg hne, hm]
    · intro hm
      simp only [sanFinish, if_neg hne, hm]
    · intro h2
      rcases hms : sanMatches b movePart (sanPieceType movePart) dest promo with
        _ | ⟨a, _ | ⟨a', t⟩⟩
      · rw [hms] at h2; simp at h2
      · rw [hms] at h2; simp at h2
      · simp only [sanFinish, if_neg hne, hms]

/-- A position with two white knights (b6 and f6) both able to reach d7,
plus the kings. -/
def twoKnightsBoard : Board :=
  { sideToMove := .White
    legalMoves :=
      [ ⟨⟨1, 5⟩, ⟨3, 6⟩, none⟩
      , ⟨⟨5, 5⟩, ⟨3, 6⟩, none⟩
      , ⟨⟨1, 5⟩, ⟨0, 3⟩, none⟩
      , ⟨⟨0, 0⟩, ⟨0, 1⟩, none⟩ ]
    pieces :=
      [ (⟨1, 5⟩, .Knight), (⟨5, 5⟩, .Knight)
      , (⟨0, 0⟩, .King), (⟨7, 7⟩, .King) ] }

/-- Witness for C6 (the spec's Scenario 3): with two knights able to
reach d7, "Nd7" is ambiguous and file-disambiguated "Nbd7" uniquely
resolves to the b6-knight move. -/
theorem san_filter_count_determines_outcome_witness :
    parseSan twoKnightsBoard (str "Nd7") = .error .sanAmbiguous ∧
    parseSan twoKnightsBoard (str "Nbd7") = .ok ⟨⟨1, 5⟩, ⟨3, 6⟩, none⟩ := by
  constructor
  · exact (((san_filter_count_determines_outcome twoKnightsBoard (str "Nd7")
      (str "Nd7") (str "Nd7") none ⟨3, 6⟩ (by decide) (by decide) (by rfl)
      (by rfl) (by decide) (by rfl)).2 (by decide)).2.2 (by decide))
  · exact (((san_filter_count_determines_outcome twoKnightsBoard (str "Nbd7")
      (str "Nbd7") (str "Nbd7") none ⟨3, 6⟩ (by decide) (by decide) (by rfl)
      (by rfl) (by decide) (by rfl)).2 (by decide)).1 ⟨⟨1, 5⟩, ⟨3, 6⟩, none⟩
      (by rfl))

end Kamachess

namespace Kamachess

/-! ### Move-candidate extraction: `src/parsing/mod.rs` -/

/-- Embeds `is_cyrillic`: the range matched by the source
(`'а'..='я' | 'А'..='Я'`). -/
def isCyrillic (c : Char) : Bool :=
  ('а' ≤ c && c ≤ 'я') || ('А' ≤ c && c ≤ 'Я')

/-- Embeds `normalize_chess_input`, as a per-character map: Cyrillic lookalike
letters to their Latin equivalents, everything else unchanged. -/
def normalizeChar (c : Char) : Char :=
  match c with
  | 'а' => 'a'
  | 'б' => 'b'
  | 'с' => 'c'
  | 'д' => 'd'
  | 'е' => 'e'
  | 'ф' => 'f'
  | 'г' => 'g'
  | 'х' => 'h'
  | 'А' => 'A'
  | 'В' => 'B'
  | 'С' => 'C'
  | 'Д' => 'D'
  | 'Е' => 'E'
  | 'Ф' => 'F'
  | 'Г' => 'G'
  | 'Х' => 'H'
  | 'К' => 'K'
  | 'Н' => 'N'
  | 'Р' => 'R'
  | 'О' => 'O'
  | _ => c

/-- Rust `char::is_alphanumeric`, restricted to the alphabets this
program can see (ASCII plus the Cyrillic block the normalizer and the
trimmer deal with). -/
def isAlnumCh (c : Char) : Bool :=
  c.isAlpha || c.isDigit || isCyrillic c

/-- UTF-8 byte width of a character; the source measures token length in
bytes (`str::len`). -/
def utf8Width (c : Char) : Nat :=
  if c.toNat < 0x80 then 1
  else if c.toNat < 0x800 then 2
  else if c.toNat < 0x10000 then 3
  else 4

/-- Byte length of a token (`str::len`). -/
def utf8Len (l : List Char) : Nat :=
  (l.map utf8Width).sum

/-- Embeds `str::split_whitespace` (ASCII whitespace). -/
def splitWhitespace (l : List Char) : List (List Char) :=
  (l.splitOnP isWs).filter (fun t => !t.isEmpty)

/-- Embeds `str::trim_matches` with a predicate: strip matching characters from
both ends. -/
def trimMatches (p : Char → Bool) (l : List Char) : List Char :=
  dropEndWhile p (l.dropWhile p)

/-- The character class kept by `extract_move`'s `trim_matches` closure:
alphanumerics, the SAN punctuation `- + # = x X O 0`, and Cyrillic. -/
def keepCh (c : Char) : Bool :=
  isAlnumCh c || c == '-' || c == '+' || c == '#' || c == '=' ||
    c == 'x' || c == 'X' || c == 'O' || c == '0' || isCyrillic c

/-- Embeds `str::eq_ignore_ascii_case`. -/
def eqIgnoreAsciiCase (a b : List Char) : Bool :=
  a.map Char.toLower == b.map Char.toLower

/-- Embeds `is_move_candidate`. -/
def isMoveCandidate (token : List Char) : Bool :=
  let len := utf8Len token
  if !(2 ≤ len && len ≤ 7) then
    false
  else if eqIgnoreAsciiCase token (str "O-O") ||
      eqIgnoreAsciiCase token (str "O-O-O") ||
      token == str "0-0" || token == str "0-0-0" ||
      token == str "00" || token == str "000" ||
      eqIgnoreAsciiCase token (str "oo") ||
      eqIgnoreAsciiCase token (str "ooo") then
    true
  else if !(token.all fun c =>
      isAlnumCh c || c == '-' || c == '+' || c == '#' || c == '=' ||
        c == 'x' || c == 'X') then
    false
  else if !(token.any fun c => c.isDigit) then
    false
  else
    match token with
    | [] => false
    | first :: _ =>
      (first.toUpper == 'K' || first.toUpper == 'Q' || first.toUpper == 'R' ||
        first.toUpper == 'B' || first.toUpper == 'N') ||
      ('a' ≤ first.toLower && first.toLower ≤ 'h')

/-- Embeds `extract_move`: scan whitespace tokens from the right, trim each to
the kept character class, normalize Cyrillic lookalikes, and return the
first (i.e. rightmost) token that is move-shaped. -/
def extractMove (text : List Char) : Option (List Char) :=
  ((splitWhitespace text).reverse).findSome? (fun token =>
    let cleaned := trimMatches (fun c => !keepCh c) token
    let normalized := cleaned.map normalizeChar
    if isMoveCandidate normalized then some normalized else none)

end Kamachess

namespace Kamachess

/-! ### Game-session state machine: `src/handlers/game_handler.rs`

The handlers are modelled as pure transitions on the session row they
read and write.  Persistence always succeeds (failure aborts the whole
operation in the source and mutates nothing).  Outbound traffic is
reduced to the shape the claims need: plain text replies versus board
photos. -/

/-- A persisted-move row (`insert_move`): mover, 1-based move number and
the move. -/
structure MoveRec where
  playerId : Int
  number : Nat
  mv : ChessMove
deriving DecidableEq, Repr

/-- The session row of the `games` table, as read and written by the
handlers. -/
structure Game where
  whiteUserId : Int
  blackUserId : Int
  board : Board
  status : String
  result : Option String
  drawProposedBy : Option Int
  moveLog : List MoveRec
deriving DecidableEq, Repr

/-- The two PositionEngine operations the handlers consume beyond the
`Board` data: `make_move_new` and `status`. -/
structure Engine where
  apply : Board → ChessMove → Board
  status : Board → BoardStatus

/-- What a handler invocation sends back. -/
inductive Outbound where
  | message (text : String)
  | boardPhoto
deriving DecidableEq, Repr

/-- Result of one handler invocation: the updated session row, the
`update_player_stats` calls it made, and the outbound traffic. -/
structure HandlerResult where
  game : Game
  statsUpdates : List (Int × Int × String)
  outbound : List Outbound
deriving DecidableEq, Repr

/-- Silent return: session untouched, no statistics, no reply. -/
def noop (g : Game) : HandlerResult := ⟨g, [], []⟩

/-- Early return that only sends a text reply. -/
def replyOnly (g : Game) (t : String) : HandlerResult := ⟨g, [], [.message t]⟩

/-- Embeds `determine_game_result`, reduced to its data: the winner named in
the status text (as a side) and the recorded result string.  On
checkmate the source names the side opposite to its `side_to_move`
argument. -/
def determineGameResult (status : BoardStatus) (sideToMove : Color) :
    Option Color × String :=
  match status with
  | .Checkmate =>
    (some (if sideToMove = .White then .Black else .White),
      if sideToMove = .White then "0-1" else "1-0")
  | .Stalemate => (none, "1/2-1/2")
  | .Ongoing => (none, "")

/-- Embeds `handle_move`, from the point where the session row has been located
via the replied-to message.  The source clears a pending draw proposal
only when one is set; the resulting row is identical to clearing
unconditionally. -/
def handleMove (eng : Engine) (g : Game) (player : Int) (text : List Char) :
    HandlerResult :=
  if g.status ≠ "ongoing" then noop g
  else
    match extractMove text with
    | none => noop g
    | some candidate =>
      if player ≠ g.whiteUserId ∧ player ≠ g.blackUserId then
        replyOnly g "This game belongs to other players."
      else
        let sideToMove := g.board.sideToMove
        let expectedId :=
          if sideToMove = .White then g.whiteUserId else g.blackUserId
        if player ≠ expectedId then
          replyOnly g "It is not your turn."
        else
          match parseMove g.board candidate with
          | .error _ => replyOnly g "Invalid move."
          | .ok mv =>
            let nextBoard := eng.apply g.board mv
            let g1 : Game :=
              { g with
                drawProposedBy := none
                moveLog := g.moveLog ++ [⟨player, g.moveLog.length + 1, mv⟩]
                board := nextBoard }
            let status := eng.status nextBoard
            if status ≠ .Ongoing then
              let result := (determineGameResult status sideToMove).2
              ⟨{ g1 with status := "finished", result := some result },
                [(g.whiteUserId, g.blackUserId, result)],
                [.message "Game ended."]⟩
            else
              ⟨g1, [], [.boardPhoto]⟩

/-- Embeds `handle_resign`, from the located session row. -/
def handleResign (g : Game) (player : Int) : HandlerResult :=
  if g.status ≠ "ongoing" then noop g
  else if player ≠ g.whiteUserId ∧ player ≠ g.blackUserId then noop g
  else
    let result := if player = g.whiteUserId then "0-1" else "1-0"
    let g1 : Game :=
      { g with status := "finished", result := some result, drawProposedBy := none }
    ⟨g1, [(g.whiteUserId, g.blackUserId, result)], [.message "Game ended."]⟩

/-- Embeds `handle_draw_proposal`, from the located session row. -/
def handleDrawProposal (g : Game) (player : Int) : HandlerResult :=
  if g.status ≠ "ongoing" then noop g
  else if player ≠ g.whiteUserId ∧ player ≠ g.blackUserId then noop g
  else
    ⟨{ g with drawProposedBy := some player }, [],
      [.message "proposed a draw"]⟩

/-- Embeds `handle_accept_draw`, from the located session row;
`update_game_result` sets `draw_proposed_by = NULL`, clearing the
proposal on success. -/
def handleAcceptDraw (g : Game) (player : Int) : HandlerResult :=
  if g.status ≠ "ongoing" then noop g
  else if player ≠ g.whiteUserId ∧ player ≠ g.blackUserId then noop g
  else
    match g.drawProposedBy with
    | none => replyOnly g "No draw proposal is pending."
    | some proposerId =>
      if proposerId = player then
        replyOnly g "You cannot accept your own draw proposal."
      else
        let g1 : Game :=
          { g with status := "finished", result := some "1/2-1/2", drawProposedBy := none }
        ⟨g1, [(g.whiteUserId, g.blackUserId, "1/2-1/2")], [.message "Game ended."]⟩

end Kamachess

namespace Kamachess

/-- An inert engine instance for witnesses whose path never applies a
move. -/
def idleEngine : Engine := ⟨fun b _ => b, fun _ => .Ongoing⟩

/-- An ongoing demo session between players 1 (white) and 2 (black). -/
def demoGame : Game :=
  { whiteUserId := 1
    blackUserId := 2
    board := demoBoard
    status := "ongoing"
    result := none
    drawProposedBy := none
    moveLog := [] }

/-- C9: an inbound move message without a move-shaped token (under the
rightmost-token scan with Cyrillic normalization) is a silent no-op —
the session row, statistics and outbound traffic are all untouched —
for every sender, so the participant and turn checks never run on such
messages. -/
theorem no_move_token_is_silent_noop (eng : Engine) (g : Game) (player : Int)
    (text : List Char) (h : extractMove text = none) :
    handleMove eng g player text = noop g := by
  simp only [handleMove, h]
  split
  · rfl
  · rfl

/-- Witness for C9: the message "hello there" contains no move-shaped
token and leaves the ongoing demo session silently unchanged, for a
sender who is not even a participant. -/
theorem no_move_token_is_silent_noop_witness :
    handleMove idleEngine demoGame 999 (str "hello there") = noop demoGame :=
  no_move_token_is_silent_noop idleEngine demoGame 999 (str "hello there")
    (by rfl)

/-- C8: Finished is absorbing — on a session whose status is not
"ongoing", ApplyMove, Resign, ProposeDraw and AcceptDraw all return
silently without touching the session row (position, move log, status,
result, proposal) or the statistics counters. -/
theorem finished_session_is_absorbing (eng : Engine) (g : Game)
    (player : Int) (text : List Char) (h : g.status ≠ "ongoing") :
    handleMove eng g player text = noop g ∧
    handleResign g player = noop g ∧
    handleDrawProposal g player = noop g ∧
    handleAcceptDraw g player = noop g := by
  refine ⟨?_, ?_, ?_, ?_⟩ <;>
    simp only [handleMove, handleResign, handleDrawProposal, handleAcceptDraw,
      if_pos h]

/-- A finished demo session. -/
def finishedGame : Game :=
  { demoGame with status := "finished", result := some "1-0" }

/-- Witness for C8: all four operations leave the concrete finished
session untouched, even for a participant submitting a real move. -/
theorem finished_session_is_absorbing_witness :
    handleMove idleEngine finishedGame 1 (str "e4") = noop finishedGame ∧
    handleResign finishedGame 1 = noop finishedGame ∧
    handleDrawProposal finishedGame 1 = noop finishedGame ∧
    handleAcceptDraw finishedGame 1 = noop finishedGame :=
  finished_session_is_absorbing idleEngine finishedGame 1 (str "e4")
    (by decide)

end Kamachess

namespace Kamachess

/-- C7: draw-handshake protocol.  For an ongoing session and a
participant submitter: AcceptDraw with no pending proposal replies
"no pending proposal" without mutating anything; AcceptDraw on one's
own proposal replies "own proposal" without mutating anything; accepting
an opponent's proposal finishes the session with the draw result, a
cleared proposal and one statistics update; and a successful ApplyMove
(participant on turn, move parses) always clears the pending
proposal. -/
theorem draw_handshake (eng : Engine) (g : Game) (p : Int) (text : List Char)
    (hOngoing : g.status = "ongoing")
    (hPart : p = g.whiteUserId ∨ p = g.blackUserId) :
    (g.drawProposedBy = none →
      handleAcceptDraw g p = replyOnly g "No draw proposal is pending.") ∧
    (g.drawProposedBy = some p →
      handleAcceptDraw g p =
        replyOnly g "You cannot accept your own draw proposal.") ∧
    (∀ q, g.drawProposedBy = some q → q ≠ p →
      handleAcceptDraw g p =
        ⟨{ g with status := "finished", result := some "1/2-1/2", drawProposedBy := none },
          [(g.whiteUserId, g.blackUserId, "1/2-1/2")], [.message "Game ended."]⟩) ∧
    (∀ candidate mv, extractMove text = some candidate →
      p = (if g.board.sideToMove = .White then g.whiteUserId else g.blackUserId) →
      parseMove g.board candidate = .ok mv →
      (handleMove eng g p text).game.drawProposedBy = none) := by
  have hNotOut : ¬(p ≠ g.whiteUserId ∧ p ≠ g.blackUserId) := by
    rintro ⟨h1, h2⟩
    rcases hPart with h | h
    · exact h1 h
    · exact h2 h
  have hNotFin : ¬ g.status ≠ "ongoing" := by
    rw [hOngoing]
    exact fun h => h rfl
  refine ⟨?_, ?_, ?_, ?_⟩
  · intro hnone
    simp only [handleAcceptDraw, if_neg hNotFin, if_neg hNotOut, hnone]
  · intro hown
    simp only [handleAcceptDraw, if_neg hNotFin, if_neg hNotOut, hown,
      eq_self_iff_true, if_true]
  · intro q hq hqp
    simp only [handleAcceptDraw, if_neg hNotFin, if_neg hNotOut, hq,
      if_neg hqp]
  · intro candidate mv hcand hturn hparse
    have hTurnEq : ¬ p ≠ (if g.board.sideToMove = .White then g.whiteUserId
        else g.blackUserId) := fun h => h hturn
    simp only [handleMove, if_neg hNotFin, hcand, if_neg hNotOut,
      if_neg hTurnEq, hparse]
    split
    · rfl
    · rfl

/-- An ongoing session where black (player 2) has proposed a draw. -/
def proposedGame : Game := { demoGame with drawProposedBy := some 2 }

/-- Witness for C7: on concrete sessions, accepting with no pending
proposal and accepting one's own proposal are rejected unchanged;
white's acceptance of black's proposal finishes the game as a draw with
the proposal cleared; and white's move e4 on the proposal-pending
session clears the proposal. -/
theorem draw_handshake_witness :
    handleAcceptDraw demoGame 1 =
      replyOnly demoGame "No draw proposal is pending." ∧
    handleAcceptDraw proposedGame 2 =
      replyOnly proposedGame "You cannot accept your own draw proposal." ∧
    handleAcceptDraw proposedGame 1 =
      ⟨{ proposedGame with status := "finished", result := some "1/2-1/2", drawProposedBy := none },
        [(1, 2, "1/2-1/2")], [.message "Game ended."]⟩ ∧
    (handleMove idleEngine proposedGame 1 (str "e4")).game.drawProposedBy
      = none := by
  refine ⟨?_, ?_, ?_, ?_⟩
  · exact (draw_handshake idleEngine demoGame 1 (str "e4") (by rfl)
      (Or.inl (by rfl))).1 (by rfl)
  · exact (draw_handshake idleEngine proposedGame 2 (str "e4") (by rfl)
      (Or.inr (by rfl))).2.1 (by rfl)
  · exact (draw_handshake idleEngine proposedGame 1 (str "e4") (by rfl)
      (Or.inl (by rfl))).2.2.1 2 (by rfl) (by decide)
  · exact (draw_handshake idleEngine proposedGame 1 (str "e4") (by rfl)
      (Or.inl (by rfl))).2.2.2 (str "e4") ⟨⟨4, 1⟩, ⟨4, 3⟩, none⟩ (by rfl)
      (by rfl) (by rfl)

end Kamachess

namespace Kamachess

/-- A position with white to move and a single legal queen move h5–f7
that delivers mate. -/
def matingBoard : Board :=
  { sideToMove := .White
    legalMoves := [⟨⟨7, 4⟩, ⟨5, 6⟩, none⟩]
    pieces := [(⟨7, 4⟩, .Queen), (⟨4, 0⟩, .King), (⟨4, 7⟩, .King)] }

/-- The position after the mating move: black to move with no legal
moves. -/
def matedBoard : Board :=
  { sideToMove := .Black
    legalMoves := []
    pieces := [(⟨5, 6⟩, .Queen), (⟨4, 0⟩, .King), (⟨4, 7⟩, .King)] }

/-- An engine instance delivering that mate: applying any move yields
the mated position, and a position without legal moves is checkmate. -/
def mateEngine : Engine :=
  ⟨fun _ _ => matedBoard,
    fun b => if b.legalMoves.isEmpty then .Checkmate else .Ongoing⟩

/-- The ongoing session for that position: white is player 1. -/
def mateGame : Game :=
  { whiteUserId := 1
    blackUserId := 2
    board := matingBoard
    status := "ongoing"
    result := none
    drawProposedBy := none
    moveLog := [] }

/-- C1 (code bug): white, the side that just moved, delivers checkmate
with Qf7, yet the handler records the result "0-1" — a win credited to
black, the mated side — and names black as the winner, because
`determine_game_result` receives the pre-move side to move but treats
it as the side to move in the mated position.  The claim (and the
spec's "the side that delivered mate wins") requires "1-0" here.
Stalemate and the single statistics update behave as claimed. -/
theorem checkmate_credits_the_mated_side :
    (handleMove mateEngine mateGame 1 (str "Qf7")).game.status = "finished" ∧
    (handleMove mateEngine mateGame 1 (str "Qf7")).game.result = some "0-1" ∧
    (handleMove mateEngine mateGame 1 (str "Qf7")).statsUpdates
      = [(1, 2, "0-1")] ∧
    determineGameResult .Checkmate .White = (some .Black, "0-1") ∧
    determineGameResult .Stalemate .White = (none, "1/2-1/2") :=
  ⟨by rfl, by rfl, by rfl, by rfl, by rfl⟩

end Kamachess

namespace Kamachess

/-! ### Bounded image cache: `src/game/cache.rs`

The cache directory is modelled as the list of its `.png` entries (name,
byte size, modification time); filesystem reads, writes and deletions
succeed.  The configured byte budget (`IMAGE_CACHE_SIZE_MB`, scaled by
1024·1024) is passed as the `maxSizeBytes` parameter. -/

/-- One cached file: path, byte size, modification time. -/
structure CacheEntry where
  name : List Char
  size : Nat
  mtime : Nat
deriving DecidableEq, Repr

/-- Embeds `calculate_cache_size`: total size of the entries. -/
def calculateCacheSize (dir : List CacheEntry) : Nat :=
  (dir.map (·.size)).sum

/-- The eviction target: `(max_size_bytes * EVICTION_TARGET_PERCENT) / 100`
with `EVICTION_TARGET_PERCENT = 80`. -/
def evictionTarget (maxSizeBytes : Nat) : Nat :=
  maxSizeBytes * 80 / 100

/-- The file list sorted by modification time, oldest first
(`files.sort_by_key(mtime)`, a stable sort; insertion sort realizes the
same stable ordering). -/
def sortByMtime (dir : List CacheEntry) : List CacheEntry :=
  dir.insertionSort (fun a b => a.mtime ≤ b.mtime)

/-- The deletion loop of `evict_lru_files`: walk the time-sorted files,
deleting while the remaining usage (`current_size - freed_size`) still
exceeds the target. -/
def evictGo (target current freed : Nat) : List CacheEntry → List CacheEntry
  | [] => []
  | e :: rest =>
    if current - freed ≤ target then e :: rest
    else evictGo target current (freed + e.size) rest

/-- Embeds `evict_lru_files` (all deletions succeeding): the entries that
survive the pass. -/
def evictLruFiles (dir : List CacheEntry) (current target : Nat) :
    List CacheEntry :=
  evictGo target current 0 (sortByMtime dir)

/-- Embeds `check_and_evict_if_needed`. -/
def checkAndEvictIfNeeded (maxSizeBytes : Nat) (dir : List CacheEntry) :
    List CacheEntry :=
  let current := calculateCacheSize dir
  if current > maxSizeBytes then
    evictLruFiles dir current (evictionTarget maxSizeBytes)
  else
    dir

theorem calculateCacheSize_nil : calculateCacheSize [] = 0 := rfl

theorem calculateCacheSize_cons (e : CacheEntry) (l : List CacheEntry) :
    calculateCacheSize (e :: l) = e.size + calculateCacheSize l := by
  simp [calculateCacheSize]

theorem calculateCacheSize_append (l₁ l₂ : List CacheEntry) :
    calculateCacheSize (l₁ ++ l₂) = calculateCacheSize l₁ + calculateCacheSize l₂ := by
  simp [calculateCacheSize]

theorem calculateCacheSize_sortByMtime (dir : List CacheEntry) :
    calculateCacheSize (sortByMtime dir) = calculateCacheSize dir := by
  have h := ((List.perm_insertionSort
    (fun a b => a.mtime ≤ b.mtime) dir).map (·.size)).sum_eq
  simpa [calculateCacheSize, sortByMtime] using h

/-- The deletion loop removes a minimal prefix: the result is `drop k` of
its input for the least `k` bringing the remaining usage down to the
target. -/
theorem evictGo_spec (target current : Nat) :
    ∀ (l : List CacheEntry) (freed : Nat),
      current = freed + calculateCacheSize l →
      ∃ k, evictGo target current freed l = l.drop k ∧
        current - (freed + calculateCacheSize (l.take k)) ≤ target ∧
        ∀ j < k, target < current - (freed + calculateCacheSize (l.take j)) := by
  intro l
  induction l with
  | nil =>
    intro freed hcur
    rw [calculateCacheSize_nil] at hcur
    refine ⟨0, rfl, ?_, by omega⟩
    simp only [List.take_zero, calculateCacheSize_nil]
    omega
  | cons e rest ih =>
    intro freed hcur
    rw [calculateCacheSize_cons] at hcur
    by_cases hstop : current - freed ≤ target
    · refine ⟨0, ?_, ?_, by omega⟩
      · simp only [evictGo, if_pos hstop, List.drop_zero]
      · simp only [List.take_zero, calculateCacheSize_nil]
        omega
    · obtain ⟨k, hdrop, hbound, hmin⟩ := ih (freed + e.size) (by omega)
      refine ⟨k + 1, ?_, ?_, ?_⟩
      · simp only [evictGo, if_neg hstop, List.drop_succ_cons]
        exact hdrop
      · rw [List.take_succ_cons, calculateCacheSize_cons]
        omega
      · intro j hj
        match j with
        | 0 =>
          simp only [List.take_zero, calculateCacheSize_nil]
          omega
        | j' + 1 =>
          have := hmin j' (by omega)
          rw [List.take_succ_cons, calculateCacheSize_cons]
          omega

/-- The surviving usage after one eviction pass never exceeds the
budget (it is the old usage when that was within budget, and at most
the 80% target otherwise). -/
theorem checkAndEvict_le_budget (maxSizeBytes : Nat) (dir : List CacheEntry) :
    calculateCacheSize (checkAndEvictIfNeeded maxSizeBytes dir) ≤
      max maxSizeBytes (calculateCacheSize dir) := by
  simp only [checkAndEvictIfNeeded]
  split
  · next hover =>
    simp only [evictLruFiles]
    obtain ⟨k, hdrop, hbound, _⟩ := evictGo_spec (evictionTarget maxSizeBytes)
      (calculateCacheSize dir) (sortByMtime dir) 0
      (by rw [calculateCacheSize_sortByMtime]; omega)
    rw [hdrop]
    have hsplit : calculateCacheSize ((sortByMtime dir).take k) +
        calculateCacheSize ((sortByMtime dir).drop k) = calculateCacheSize dir := by
      rw [← calculateCacheSize_append, List.take_append_drop,
        calculateCacheSize_sortByMtime]
    have htarget : evictionTarget maxSizeBytes ≤ maxSizeBytes := by
      have := Nat.div_mul_le_self (maxSizeBytes * 80) 100
      have h100 : maxSizeBytes * 80 ≤ maxSizeBytes * 100 := by
        exact Nat.mul_le_mul_left _ (by omega)
      simp only [evictionTarget]
      by_contra hlt
      push_neg at hlt
      have : maxSizeBytes * 100 < (maxSizeBytes * 80 / 100) * 100 := by omega
      have := Nat.div_mul_le_self (maxSizeBytes * 80) 100
      omega
    omega
  · exact le_max_right _ _

/-- C4: when the entries total more than the budget, one eviction pass
(with every deletion succeeding) removes exactly a minimal prefix of the
entries ordered by modification time ascending — the oldest entries, and
only as many as needed — leaving a total of at most 80% of the budget. -/
theorem eviction_pass_lru (dir : List CacheEntry) (B : Nat)
    (h : calculateCacheSize dir > B) :
    ∃ k,
      checkAndEvictIfNeeded B dir = (sortByMtime dir).drop k ∧
      (sortByMtime dir).take k ++ checkAndEvictIfNeeded B dir = sortByMtime dir ∧
      calculateCacheSize (checkAndEvictIfNeeded B dir) ≤ evictionTarget B ∧
      100 * calculateCacheSize (checkAndEvictIfNeeded B dir) ≤ 80 * B ∧
      ∀ j < k, evictionTarget B < calculateCacheSize ((sortByMtime dir).drop j) := by
  obtain ⟨k, hdrop, hbound, hmin⟩ := evictGo_spec (evictionTarget B)
    (calculateCacheSize dir) (sortByMtime dir) 0
    (by rw [calculateCacheSize_sortByMtime]; omega)
  have hre : checkAndEvictIfNeeded B dir = (sortByMtime dir).drop k := by
    simp only [checkAndEvictIfNeeded, if_pos h, evictLruFiles]
    exact hdrop
  have hsum : ∀ j, calculateCacheSize ((sortByMtime dir).take j) +
      calculateCacheSize ((sortByMtime dir).drop j) = calculateCacheSize dir := by
    intro j
    rw [← calculateCacheSize_append, List.take_append_drop,
      calculateCacheSize_sortByMtime]
  refine ⟨k, hre, ?_, ?_, ?_, ?_⟩
  · rw [hre, List.take_append_drop]
  · rw [hre]
    have := hsum k
    omega
  · rw [hre]
    have := hsum k
    have hmul := Nat.div_mul_le_self (B * 80) 100
    simp only [evictionTarget] at hbound
    omega
  · intro j hj
    have := hmin j hj
    have := hsum j
    omega

/-- Three entries of sizes 50, 40, 30 (oldest first), totalling 120. -/
def demoCacheDir : List CacheEntry :=
  [⟨str "p1", 50, 1⟩, ⟨str "p2", 40, 2⟩, ⟨str "p3", 30, 3⟩]

/-- Witness for C4: with a 100-byte budget the demo directory (120
bytes) is over budget, and the theorem produces the minimal oldest-first
eviction prefix; concretely the pass drops exactly the oldest entry,
leaving 70 ≤ 80. -/
theorem eviction_pass_lru_witness :
    calculateCacheSize demoCacheDir > 100 ∧
    (∃ k,
      checkAndEvictIfNeeded 100 demoCacheDir = (sortByMtime demoCacheDir).drop k ∧
      (sortByMtime demoCacheDir).take k ++ checkAndEvictIfNeeded 100 demoCacheDir
        = sortByMtime demoCacheDir ∧
      calculateCacheSize (checkAndEvictIfNeeded 100 demoCacheDir) ≤ evictionTarget 100 ∧
      100 * calculateCacheSize (checkAndEvictIfNeeded 100 demoCacheDir) ≤ 80 * 100 ∧
      ∀ j < k, evictionTarget 100 <
        calculateCacheSize ((sortByMtime demoCacheDir).drop j)) ∧
    checkAndEvictIfNeeded 100 demoCacheDir = [⟨str "p2", 40, 2⟩, ⟨str "p3", 30, 3⟩] :=
  ⟨by decide, eviction_pass_lru demoCacheDir 100 (by decide), by decide⟩

end Kamachess

namespace Kamachess

/-- Embeds `get_or_create` (`src/game/cache.rs` lines 15–53): on a hit the
stored bytes are returned and the directory is untouched; on a miss the
image is rendered, `check_and_evict_if_needed` runs, and THEN the new
entry is written.  Reads, renders and writes succeed in the model. -/
def getOrCreate (maxSizeBytes : Nat) (dir : List CacheEntry)
    (key : List Char) (renderedSize : Nat) (now : Nat) : List CacheEntry :=
  if dir.any (fun e => e.name == key) then
    dir
  else
    checkAndEvictIfNeeded maxSizeBytes dir ++ [⟨key, renderedSize, now⟩]

/-- C5 counterexample: a directory holding 90 bytes against a 100-byte
budget takes a 50-byte write; no eviction runs (90 ≤ 100 before the
write, and the pass runs before, not after, the write), so the call
leaves 140 stored bytes — exceeding the budget, contradicting the
claimed "total stored bytes do not exceed B immediately after any call
whose write succeeds". -/
theorem cache_write_can_exceed_budget :
    calculateCacheSize
      (getOrCreate 100 [⟨str "p1", 60, 1⟩, ⟨str "p2", 30, 2⟩] (str "p3") 50 3)
      = 140 ∧ 140 > 100 :=
  ⟨by rfl, by omega⟩

/-- C5 (amended): the eviction pass runs only on the miss path and
before the new entry is written — a hit leaves the directory untouched,
and a miss produces exactly the evicted old directory with the new entry
appended.  Consequently the total after a successful write is bounded by
the budget plus the size of the new entry (not by the budget alone). -/
theorem eviction_before_write (maxSizeBytes : Nat) (dir : List CacheEntry)
    (key : List Char) (renderedSize now : Nat) :
    (dir.any (fun e => e.name == key) = true →
      getOrCreate maxSizeBytes dir key renderedSize now = dir) ∧
    (dir.any (fun e => e.name == key) = false →
      getOrCreate maxSizeBytes dir key renderedSize now =
        checkAndEvictIfNeeded maxSizeBytes dir ++ [⟨key, renderedSize, now⟩] ∧
      calculateCacheSize (getOrCreate maxSizeBytes dir key renderedSize now) ≤
        max maxSizeBytes (calculateCacheSize dir) + renderedSize) := by
  constructor
  · intro hhit
    simp only [getOrCreate, hhit, if_true]
  · intro hmiss
    have hform : getOrCreate maxSizeBytes dir key renderedSize now =
        checkAndEvictIfNeeded maxSizeBytes dir ++ [⟨key, renderedSize, now⟩] := by
      simp only [getOrCreate, hmiss, Bool.false_eq_true, if_false]
    refine ⟨hform, ?_⟩
    rw [hform, calculateCacheSize_append]
    have := checkAndEvict_le_budget maxSizeBytes dir
    simp only [calculateCacheSize_cons, calculateCacheSize_nil]
    omega

/-- Witness for the amended C5: on the concrete 90-byte directory the
miss path evicts nothing, appends the 50-byte entry, and the bound
140 ≤ max 100 90 + 50 holds. -/
theorem eviction_before_write_witness :
    getOrCreate 100 [⟨str "p1", 60, 1⟩, ⟨str "p2", 30, 2⟩] (str "p3") 50 3 =
      checkAndEvictIfNeeded 100 [⟨str "p1", 60, 1⟩, ⟨str "p2", 30, 2⟩] ++
        [⟨str "p3", 50, 3⟩] ∧
    calculateCacheSize
      (getOrCreate 100 [⟨str "p1", 60, 1⟩, ⟨str "p2", 30, 2⟩] (str "p3") 50 3) ≤
      max 100 (calculateCacheSize [⟨str "p1", 60, 1⟩, ⟨str "p2", 30, 2⟩]) + 50 :=
  (eviction_before_write 100 [⟨str "p1", 60, 1⟩, ⟨str "p2", 30, 2⟩]
    (str "p3") 50 3).2 (by rfl)

end Kamachess

namespace Kamachess

/-! ### Cache key derivation: `get_cache_path` -/

/-- The character replacement of `fen.replace(['/', ' '], "_")`. -/
def safeChar (c : Char) : Char :=
  if c = '/' ∨ c = ' ' then '_' else c

/-- Embeds `safe_fen`. -/
def safeFen (fen : List Char) : List Char :=
  fen.map safeChar

/-- Embeds `flip_suffix`. -/
def flipSuffix (flipBoard : Bool) : List Char :=
  if flipBoard then str "_flipped" else []

/-- Embeds `get_cache_path`: `images_cache/{safe_fen}{flip_suffix}.png`. -/
def getCachePath (fen : List Char) (flipBoard : Bool) : List Char :=
  str "images_cache/" ++ safeFen fen ++ flipSuffix flipBoard ++ str ".png"

/-- The claim's side condition: every '/' of the serialization occurs
before the first space (no '/' at or after the first space). -/
def slashesBeforeSpace (l : List Char) : Prop :=
  '/' ∉ l.dropWhile (fun c => !(c == ' '))

/-- The claim's side condition: the serialization ends in a digit. -/
def endsInDigit (l : List Char) : Prop :=
  l.getLast?.any Char.isDigit = true


instance (l : List Char) : Decidable (slashesBeforeSpace l) := by
  unfold slashesBeforeSpace
  infer_instance

instance (l : List Char) : Decidable (endsInDigit l) := by
  unfold endsInDigit
  infer_instance

/-- C10 counterexample: the strings "a/b c 1" and "a b c 1" both satisfy
the claim's conditions (no underscore, slashes before the first space,
ending in a digit), are distinct, yet map to the same unflipped cache
path `images_cache/a_b_c_1.png` — the replacement of both '/' and ' '
by '_' conflates them, so path equality does not imply serialization
equality. -/
theorem cache_path_collision :
    ('_' ∉ str "a/b c 1") ∧ slashesBeforeSpace (str "a/b c 1") ∧
      endsInDigit (str "a/b c 1") ∧
    ('_' ∉ str "a b c 1") ∧ slashesBeforeSpace (str "a b c 1") ∧
      endsInDigit (str "a b c 1") ∧
    str "a/b c 1" ≠ str "a b c 1" ∧
    getCachePath (str "a/b c 1") false = getCachePath (str "a b c 1") false :=
  ⟨by decide, by decide, by decide, by decide, by decide, by decide,
    by decide, by rfl⟩

/-- Inverse of the safe-replacement on strings whose slashes all precede
their spaces: the first `k` underscores decode to '/', the rest to ' '. -/
def unslash : Nat → List Char → List Char
  | _, [] => []
  | k, c :: cs =>
    if c = '_' then
      match k with
      | 0 => ' ' :: unslash 0 cs
      | k' + 1 => '/' :: unslash k' cs
    else
      c :: unslash k cs

theorem safeFen_cons (c : Char) (l : List Char) :
    safeFen (c :: l) = safeChar c :: safeFen l := rfl

theorem safeChar_space : safeChar ' ' = '_' := by decide

theorem safeChar_slash : safeChar '/' = '_' := by decide

theorem safeChar_other (c : Char) (h1 : c ≠ '/') (h2 : c ≠ ' ') :
    safeChar c = c := by
  have h : ¬(c = '/' ∨ c = ' ') := by
    rintro (h | h)
    · exact h1 h
    · exact h2 h
  unfold safeChar
  rw [if_neg h]

theorem unslash_cons (k : Nat) (c : Char) (cs : List Char) (h : c ≠ '_') :
    unslash k (c :: cs) = c :: unslash k cs := by
  simp [unslash, h]

theorem unslash_underscore_zero (cs : List Char) :
    unslash 0 ('_' :: cs) = ' ' :: unslash 0 cs := by
  simp [unslash]

theorem unslash_underscore_succ (k : Nat) (cs : List Char) :
    unslash (k + 1) ('_' :: cs) = '/' :: unslash k cs := by
  simp [unslash]

theorem unslash_safeFen_noslash (v : List Char) (hv : '/' ∉ v)
    (hu : '_' ∉ v) : unslash 0 (safeFen v) = v := by
  induction v with
  | nil => rfl
  | cons c cs ih =>
    have hc1 : c ≠ '/' := fun h => hv (h ▸ List.mem_cons_self c cs)
    have hc2 : c ≠ '_' := fun h => hu (h ▸ List.mem_cons_self c cs)
    have hv' : '/' ∉ cs := fun h => hv (List.mem_cons_of_mem c h)
    have hu' : '_' ∉ cs := fun h => hu (List.mem_cons_of_mem c h)
    by_cases hsp : c = ' '
    · subst hsp
      rw [safeFen_cons, safeChar_space, unslash_underscore_zero, ih hv' hu']
    · rw [safeFen_cons, safeChar_other c hc1 hsp, unslash_cons 0 c _ hc2,
        ih hv' hu']

theorem unslash_safeFen_split (u : List Char) :
    ∀ v : List Char, ' ' ∉ u → '_' ∉ u → '/' ∉ v → '_' ∉ v →
      unslash (u.count '/') (safeFen (u ++ v)) = u ++ v := by
  induction u with
  | nil =>
    intro v _ _ hv hu
    simpa using unslash_safeFen_noslash v hv hu
  | cons c u' ih =>
    intro v hsp hund hv hu
    have hc2 : c ≠ '_' := fun h => hund (h ▸ List.mem_cons_self c u')
    have hc3 : c ≠ ' ' := fun h => hsp (h ▸ List.mem_cons_self c u')
    have hsp' : ' ' ∉ u' := fun h => hsp (List.mem_cons_of_mem c h)
    have hund' : '_' ∉ u' := fun h => hund (List.mem_cons_of_mem c h)
    by_cases hc1 : c = '/'
    · subst hc1
      have hcount : (('/' : Char) :: u').count '/' = u'.count '/' + 1 := by
        simp [List.count_cons]
      rw [hcount, List.cons_append, safeFen_cons, safeChar_slash,
        unslash_underscore_succ, ih v hsp' hund' hv hu]
    · have hcount : (c :: u').count '/' = u'.count '/' := by
        simp [List.count_cons, hc1]
      rw [hcount, List.cons_append, safeFen_cons, safeChar_other c hc1 hc3,
        unslash_cons _ _ _ hc2, ih v hsp' hund' hv hu]

/-- On a string whose slashes all precede its spaces and that holds no
underscore, the cache-key replacement is invertible given the slash
count. -/
theorem unslash_safeFen (l : List Char) (hs : slashesBeforeSpace l)
    (hu : '_' ∉ l) : unslash (l.count '/') (safeFen l) = l := by
  have hsplit := List.takeWhile_append_dropWhile (fun c => !(c == ' ')) l
  have hspu : ' ' ∉ l.takeWhile (fun c => !(c == ' ')) := by
    intro hmem
    have := List.mem_takeWhile_imp hmem
    simp at this
  have hslv : '/' ∉ l.dropWhile (fun c => !(c == ' ')) := hs
  have hundu : '_' ∉ l.takeWhile (fun c => !(c == ' ')) :=
    fun h => hu (hsplit ▸ List.mem_append_left _ h)
  have hundv : '_' ∉ l.dropWhile (fun c => !(c == ' ')) :=
    fun h => hu (hsplit ▸ List.mem_append_right _ h)
  have hcount : l.count '/' = (l.takeWhile (fun c => !(c == ' '))).count '/' := by
    conv_lhs => rw [← hsplit]
    rw [List.count_append, List.count_eq_zero.mpr hslv]
    omega
  have hmain := unslash_safeFen_split _ _ hspu hundu hslv hundv
  rw [hsplit] at hmain
  rw [hcount]
  exact hmain

theorem safeFen_inj {l1 l2 : List Char}
    (h1s : slashesBeforeSpace l1) (h1u : '_' ∉ l1)
    (h2s : slashesBeforeSpace l2) (h2u : '_' ∉ l2)
    (hcount : l1.count '/' = l2.count '/')
    (heq : safeFen l1 = safeFen l2) : l1 = l2 := by
  have r1 := unslash_safeFen l1 h1s h1u
  have r2 := unslash_safeFen l2 h2s h2u
  rw [← r1, ← r2, heq, hcount]

theorem safeChar_digit {c : Char} (h : c.isDigit = true) : safeChar c = c := by
  have h1 : c ≠ '/' := by
    intro h'
    subst h'
    exact absurd h (by decide)
  have h2 : c ≠ ' ' := by
    intro h'
    subst h'
    exact absurd h (by decide)
  exact safeChar_other c h1 h2

theorem safeFen_ne_safeFen_append_flipped {l1 l2 : List Char}
    (h1d : endsInDigit l1) :
    safeFen l1 ≠ safeFen l2 ++ str "_flipped" := by
  intro heq
  obtain ⟨c, hc, hcd⟩ : ∃ c, l1.getLast? = some c ∧ c.isDigit = true := by
    unfold endsInDigit at h1d
    cases hl : l1.getLast? with
    | none => rw [hl] at h1d; exact absurd h1d (by decide)
    | some c =>
      rw [hl] at h1d
      exact ⟨c, rfl, by simpa using h1d⟩
  have h1last : (safeFen l1).getLast? = some c := by
    rw [safeFen, List.getLast?_map, hc]
    simp [safeChar_digit hcd]
  have h2last : (safeFen l2 ++ str "_flipped").getLast? = some 'd' := by
    rw [List.getLast?_append]
    rfl
  rw [heq, h2last] at h1last
  cases h1last
  exact absurd hcd (by decide)

/-- C10 (amended): the key function is deterministic, and on
serializations satisfying the stated conditions AND agreeing in their
number of '/' characters (true of genuine FEN serializations, which
always contain exactly seven), cache paths are equal exactly when the
serializations and orientation flags are; in particular flipped and
unflipped renderings of one position never share an entry. -/
theorem cache_path_key_injective (l1 l2 : List Char) (f1 f2 : Bool)
    (h1u : '_' ∉ l1) (h1s : slashesBeforeSpace l1) (h1d : endsInDigit l1)
    (h2u : '_' ∉ l2) (h2s : slashesBeforeSpace l2) (h2d : endsInDigit l2)
    (hcount : l1.count '/' = l2.count '/') :
    getCachePath l1 f1 = getCachePath l2 f2 ↔ (l1 = l2 ∧ f1 = f2) := by
  constructor
  · intro hpath
    simp only [getCachePath] at hpath
    have hmid : safeFen l1 ++ flipSuffix f1 = safeFen l2 ++ flipSuffix f2 := by
      have h1 := List.append_cancel_right hpath
      rw [List.append_assoc, List.append_assoc] at h1
      exact List.append_cancel_left h1
    cases f1 <;> cases f2
    · rw [show flipSuffix false = [] from rfl, List.append_nil,
        List.append_nil] at hmid
      exact ⟨safeFen_inj h1s h1u h2s h2u hcount hmid, rfl⟩
    · rw [show flipSuffix false = [] from rfl, List.append_nil,
        show flipSuffix true = str "_flipped" from rfl] at hmid
      exact absurd hmid (safeFen_ne_safeFen_append_flipped h1d)
    · rw [show flipSuffix false = [] from rfl, List.append_nil,
        show flipSuffix true = str "_flipped" from rfl] at hmid
      exact absurd hmid.symm (safeFen_ne_safeFen_append_flipped h2d)
    · rw [show flipSuffix true = str "_flipped" from rfl] at hmid
      have hsf := List.append_cancel_right hmid
      exact ⟨safeFen_inj h1s h1u h2s h2u hcount hsf, rfl⟩
  · rintro ⟨rfl, rfl⟩
    rfl

/-- Witness for the amended C10: the flipped and unflipped renderings of
the concrete serialization "8/8 w - - 0 1" get distinct cache paths. -/
theorem cache_path_key_injective_witness :
    getCachePath (str "8/8 w - - 0 1") true ≠
      getCachePath (str "8/8 w - - 0 1") false := by
  intro h
  have hiff := cache_path_key_injective (str "8/8 w - - 0 1")
    (str "8/8 w - - 0 1") true false (by decide) (by decide) (by decide)
    (by decide) (by decide) (by decide) (by rfl)
  exact absurd (hiff.mp h).2 (by decide)

end Kamachess
